import Mathlib

set_option linter.unusedSectionVars false

/-
Verification of the indicator computation layer of the mse-web repository
(src/utils/technical_analysis.py).  The pandas float Series is embedded as a
list of cells, each cell being NaN, a signed infinity, or an exact finite
number; IEEE-754 special-value propagation of the operations actually used by
the code (elementwise +, -, *, /, abs, comparisons with 0, row max with
NaN skipping, rolling mean, rolling sample std, exponential moving average)
is modelled exactly, with finite values kept as rationals (reals only where
a square root is taken), since the spec makes no bit-level floating point
guarantee.
-/

/-- One cell of a pandas float Series: NaN, a signed infinity (the flag is
true for negative infinity), or a finite number. -/
inductive PVal (α : Type) where
  | nan : PVal α
  | inf : Bool → PVal α
  | fin : α → PVal α
deriving DecidableEq

namespace PVal

variable {α : Type} {β : Type} [LinearOrderedField α]

/-- Elementwise negation with IEEE special values. -/
def neg : PVal α → PVal α
  | nan => nan
  | inf b => inf (!b)
  | fin x => fin (-x)

/-- Elementwise addition with IEEE special values (inf + -inf = NaN). -/
def add : PVal α → PVal α → PVal α
  | nan, _ => nan
  | inf _, nan => nan
  | fin _, nan => nan
  | inf b, inf c => if b = c then inf b else nan
  | inf b, fin _ => inf b
  | fin _, inf c => inf c
  | fin x, fin y => fin (x + y)

/-- Elementwise subtraction. -/
def sub (a b : PVal α) : PVal α := a.add b.neg

/-- Elementwise multiplication with IEEE special values (inf * 0 = NaN). -/
def mul : PVal α → PVal α → PVal α
  | nan, _ => nan
  | inf _, nan => nan
  | fin _, nan => nan
  | inf b, inf c => inf (xor b c)
  | inf b, fin x => if x = 0 then nan else inf (xor b (decide (x < 0)))
  | fin x, inf b => if x = 0 then nan else inf (xor b (decide (x < 0)))
  | fin x, fin y => fin (x * y)

/-- Elementwise division with IEEE special values: x/0 is a signed infinity
for x different from 0, 0/0 is NaN, inf/inf is NaN, finite/inf is 0. -/
def div : PVal α → PVal α → PVal α
  | nan, _ => nan
  | inf _, nan => nan
  | fin _, nan => nan
  | inf _, inf _ => nan
  | inf b, fin y => inf (xor b (decide (y < 0)))
  | fin _, inf _ => fin 0
  | fin x, fin y =>
      if y = 0 then (if x = 0 then nan else inf (decide (x < 0))) else fin (x / y)

/-- Elementwise absolute value. -/
def absP : PVal α → PVal α
  | nan => nan
  | inf _ => inf false
  | fin x => fin |x|

/-- Whether the cell is NaN (the "no value" marker). -/
def isNan : PVal α → Bool
  | nan => true
  | _ => false

/-- The comparison v > 0 as pandas evaluates it (False on NaN). -/
def gtZero : PVal α → Bool
  | nan => false
  | inf b => !b
  | fin x => decide (0 < x)

/-- The comparison v < 0 as pandas evaluates it (False on NaN). -/
def ltZero : PVal α → Bool
  | nan => false
  | inf b => b
  | fin x => decide (x < 0)

/-- Binary maximum skipping NaN, as pandas DataFrame.max(axis=1) computes a
row maximum: NaN cells are ignored, an all-NaN row gives NaN. -/
def maxSkipNa : PVal α → PVal α → PVal α
  | nan, b => b
  | inf b, nan => inf b
  | fin x, nan => fin x
  | inf b, inf c => inf (b && c)
  | inf b, fin x => if b then fin x else inf false
  | fin x, inf b => if b then fin x else inf false
  | fin x, fin y => fin (max x y)

/-- Map a function over the finite cell, keeping NaN and infinities. -/
def map (f : α → β) : PVal α → PVal β
  | nan => nan
  | inf b => inf b
  | fin x => fin (f x)

end PVal

/-- Sum of a list of cells, propagating NaN and infinities like float
addition does. -/
def sumP : List (PVal ℚ) → PVal ℚ
  | [] => PVal.fin 0
  | v :: rest => v.add (sumP rest)

/-- pandas Series.rolling(window=window).mean(): position i is NaN while fewer
than window observations exist (i + 1 < window), otherwise the sum of cells
i-window+1 .. i divided by window; a NaN inside the window propagates to NaN,
matching the default min_periods = window. -/
def rollingMean (data : List (PVal ℚ)) (window : ℕ) : List (PVal ℚ) :=
  (List.range data.length).map (fun i =>
    if i + 1 < window then PVal.nan
    else PVal.div (sumP ((data.drop (i + 1 - window)).take window)) (PVal.fin window))

/-- pandas Series.shift(): prepend NaN and drop the last cell, keeping the
length. -/
def shift1 (data : List (PVal ℚ)) : List (PVal ℚ) :=
  (PVal.nan :: data).take data.length

/-- pandas Series.diff(): cell i is data[i] - data[i-1], NaN at i = 0. -/
def diffP (data : List (PVal ℚ)) : List (PVal ℚ) :=
  List.zipWith PVal.sub data (shift1 data)

/-- Source: calculate_moving_average(data, window) =
data.rolling(window=window).mean(). -/
def calculate_moving_average (data : List (PVal ℚ)) (window : ℕ) : List (PVal ℚ) :=
  rollingMean data window

/-- Source (calculate_rsi): gain = delta.where(delta > 0, 0) with
delta = data.diff(); cells where the condition is false (including the NaN at
position 0, since NaN > 0 is false) are replaced by 0. -/
def gain (data : List (PVal ℚ)) : List (PVal ℚ) :=
  (diffP data).map (fun d => if d.gtZero then d else PVal.fin 0)

/-- Source (calculate_rsi): loss = -delta.where(delta < 0, 0). -/
def loss (data : List (PVal ℚ)) : List (PVal ℚ) :=
  ((diffP data).map (fun d => if d.ltZero then d else PVal.fin 0)).map PVal.neg

/-- Source (calculate_rsi): avg_gain = gain.rolling(window=window).mean(). -/
def avg_gain (data : List (PVal ℚ)) (window : ℕ) : List (PVal ℚ) :=
  rollingMean (gain data) window

/-- Source (calculate_rsi): avg_loss = loss.rolling(window=window).mean(). -/
def avg_loss (data : List (PVal ℚ)) (window : ℕ) : List (PVal ℚ) :=
  rollingMean (loss data) window

/-- Source: calculate_rsi(data, window): rs = avg_gain / avg_loss;
rsi = 100 - (100 / (1 + rs)). -/
def calculate_rsi (data : List (PVal ℚ)) (window : ℕ) : List (PVal ℚ) :=
  let rs := List.zipWith PVal.div (avg_gain data window) (avg_loss data window)
  rs.map (fun r => PVal.sub (PVal.fin 100) (PVal.div (PVal.fin 100) (PVal.add (PVal.fin 1) r)))

/-- Loop body of pandas ewm(span=span, adjust=False).mean() (the non-adjusted
exponential moving average), including its handling of NaN cells: a NaN input
leaves the running value unchanged but decays the carried weight, exactly as
in pandas' implementation with ignore_na = False. -/
def ewmMeanGo (a : ℚ) (weighted : PVal ℚ) (old_wt : ℚ) : List (PVal ℚ) → List (PVal ℚ)
  | [] => []
  | cur :: rest =>
    if weighted.isNan then
      let w := if cur.isNan then weighted else cur
      w :: ewmMeanGo a w 1 rest
    else
      let ow := old_wt * (1 - a)
      if cur.isNan then
        weighted :: ewmMeanGo a weighted ow rest
      else
        let w := PVal.div (PVal.add (PVal.mul (PVal.fin ow) weighted) (PVal.mul (PVal.fin a) cur))
                          (PVal.fin (ow + a))
        w :: ewmMeanGo a w 1 rest

/-- pandas data.ewm(span=span, adjust=False).mean(): the smoothing factor is
alpha = 2/(span+1) and the first cell seeds the recursion. -/
def ewmMean (data : List (PVal ℚ)) (span : ℕ) : List (PVal ℚ) :=
  match data with
  | [] => []
  | x :: rest => x :: ewmMeanGo (2 / ((span : ℚ) + 1)) x 1 rest

/-- Source: calculate_macd(data, fast_period, slow_period, signal_period):
ema_fast and ema_slow are non-adjusted EMAs of data, macd_line their
difference, signal_line the non-adjusted EMA of macd_line, histogram the
difference of macd_line and signal_line; returns (macd_line, signal_line,
histogram). -/
def calculate_macd (data : List (PVal ℚ)) (fast_period slow_period signal_period : ℕ) :
    List (PVal ℚ) × List (PVal ℚ) × List (PVal ℚ) :=
  let ema_fast := ewmMean data fast_period
  let ema_slow := ewmMean data slow_period
  let macd_line := List.zipWith PVal.sub ema_fast ema_slow
  let signal_line := ewmMean macd_line signal_period
  let histogram := List.zipWith PVal.sub macd_line signal_line
  (macd_line, signal_line, histogram)

/-- pandas Series.rolling(window=window).var() with the default ddof = 1:
position i is NaN while fewer than window observations exist, otherwise the
sum of squared deviations from the window mean divided by window - 1 (so a
window of size 1 gives 0/0 = NaN, the sample-variance convention). -/
def sampleVar (data : List (PVal ℚ)) (window : ℕ) : List (PVal ℚ) :=
  (List.range data.length).map (fun i =>
    if i + 1 < window then PVal.nan
    else
      let slice := (data.drop (i + 1 - window)).take window
      let m := PVal.div (sumP slice) (PVal.fin window)
      PVal.div (sumP (slice.map (fun v => PVal.mul (PVal.sub v m) (PVal.sub v m))))
               (PVal.fin ((window : ℚ) - 1)))

/-- pandas Series.rolling(window=window).std(): the square root of the
sample variance, taken in the reals. -/
noncomputable def rollingStd (data : List (PVal ℚ)) (window : ℕ) : List (PVal ℝ) :=
  (sampleVar data window).map (fun v =>
    match v.map (Rat.cast : ℚ → ℝ) with
    | PVal.nan => PVal.nan
    | PVal.inf b => if b then PVal.nan else PVal.inf false
    | PVal.fin x => PVal.fin (Real.sqrt x))

/-- Source: calculate_bollinger_bands(data, window, num_std):
middle_band = data.rolling(window=window).mean();
std = data.rolling(window=window).std();
upper_band = middle_band + (std * num_std);
lower_band = middle_band - (std * num_std);
returns (upper_band, middle_band, lower_band). -/
noncomputable def calculate_bollinger_bands (data : List (PVal ℚ)) (window : ℕ)
    (num_std : ℚ) : List (PVal ℝ) × List (PVal ℝ) × List (PVal ℝ) :=
  let middle_band := (rollingMean data window).map (PVal.map (Rat.cast : ℚ → ℝ))
  let std := rollingStd data window
  let upper_band := List.zipWith PVal.add middle_band
    (std.map (fun s => PVal.mul s (PVal.fin ((num_std : ℚ) : ℝ))))
  let lower_band := List.zipWith PVal.sub middle_band
    (std.map (fun s => PVal.mul s (PVal.fin ((num_std : ℚ) : ℝ))))
  (upper_band, middle_band, lower_band)

/-- Source: calculate_atr(high, low, close, window): tr1 = high - low,
tr2 = abs(high - close.shift()), tr3 = abs(low - close.shift()), tr is the
row maximum of the three columns (pandas max skips NaN), and the result is
tr.rolling(window=window).mean(). -/
def calculate_atr (high low close : List (PVal ℚ)) (window : ℕ) : List (PVal ℚ) :=
  let tr1 := List.zipWith PVal.sub high low
  let tr2 := (List.zipWith PVal.sub high (shift1 close)).map PVal.absP
  let tr3 := (List.zipWith PVal.sub low (shift1 close)).map PVal.absP
  let tr := List.zipWith PVal.maxSkipNa (List.zipWith PVal.maxSkipNa tr1 tr2) tr3
  rollingMean tr window

/-- EMA as the spec (section 4.3) words it: ema[0] = close[0] and
ema[i] = alpha*close[i] + (1-alpha)*ema[i-1], written as a scan producing
each running value; used to state that the code's non-adjusted EMA refines
this recursion on finite inputs. -/
def emaSpecGo (a : ℚ) (prev : ℚ) : List ℚ → List ℚ
  | [] => []
  | x :: rest => (a * x + (1 - a) * prev) :: emaSpecGo a (a * x + (1 - a) * prev) rest

/-- EMA recursion of the spec, seeded by the first element, with
alpha = 2/(span+1). -/
def emaSpec (close : List ℚ) (span : ℕ) : List ℚ :=
  match close with
  | [] => []
  | x :: rest => x :: emaSpecGo (2 / ((span : ℚ) + 1)) x rest

/-- MACD line as the spec words it: ema_fast - ema_slow pointwise. -/
def macdLineSpec (close : List ℚ) (fast_period slow_period : ℕ) : List ℚ :=
  List.zipWith (fun x y => x - y) (emaSpec close fast_period) (emaSpec close slow_period)

/-- True range as the spec (section 4.5) words it: tr[0] = high[0] - low[0]
and tr[i] = max over high[i]-low[i], the absolute gap to the previous close
from above, and the absolute gap to the previous close from below. -/
def trSpec (high low close : List ℚ) : List ℚ :=
  (List.range high.length).map (fun i =>
    if i = 0 then high.getD 0 0 - low.getD 0 0
    else
      max (max (high.getD i 0 - low.getD i 0) |high.getD i 0 - close.getD (i - 1) 0|)
          |low.getD i 0 - close.getD (i - 1) 0|)

/-- Every cell is finite and nonnegative; the shape of the gain and loss
Series inside calculate_rsi when the input Series has no special values. -/
def NonnegFin (l : List (PVal ℚ)) : Prop :=
  ∀ v ∈ l, ∃ q : ℚ, v = PVal.fin q ∧ 0 ≤ q

namespace PVal

variable {α : Type} [LinearOrderedField α]

@[simp] lemma neg_fin (x : α) : neg (fin x) = fin (-x) := rfl

@[simp] lemma add_fin_fin (x y : α) : add (fin x) (fin y) = fin (x + y) := rfl

@[simp] lemma add_fin_nan (x : α) : add (fin x) nan = nan := rfl

@[simp] lemma add_nan (v : PVal α) : add nan v = nan := rfl

@[simp] lemma sub_fin_fin (x y : α) : sub (fin x) (fin y) = fin (x - y) := by
  simp [sub, sub_eq_add_neg]

@[simp] lemma sub_fin_nan (x : α) : sub (fin x) nan = nan := rfl

@[simp] lemma sub_nan (v : PVal α) : sub nan v = nan := rfl

@[simp] lemma mul_fin_fin (x y : α) : mul (fin x) (fin y) = fin (x * y) := rfl

@[simp] lemma mul_nan (v : PVal α) : mul nan v = nan := rfl

@[simp] lemma div_nan (v : PVal α) : div nan v = nan := rfl

@[simp] lemma div_fin_nan (x : α) : div (fin x) nan = nan := rfl

lemma div_fin_fin_of_ne {y : α} (x : α) (hy : y ≠ 0) :
    div (fin x) (fin y) = fin (x / y) := by
  simp [div, hy]

@[simp] lemma div_fin_fin_zero_zero : div (fin (0 : α)) (fin (0 : α)) = nan := by
  simp [div]

lemma div_fin_fin_zero_of_pos {x : α} (hx : 0 < x) :
    div (fin x) (fin (0 : α)) = inf false := by
  simp [div, hx.ne', not_lt.mpr hx.le]

lemma div_fin_fin_zero_of_ne {x : α} (hx : x ≠ 0) :
    div (fin x) (fin (0 : α)) = inf (decide (x < 0)) := by
  simp [div, hx]

@[simp] lemma add_fin_inf (x : α) (b : Bool) : add (fin x) (inf b) = inf b := rfl

@[simp] lemma div_fin_inf (x : α) (b : Bool) : div (fin x) (inf b) = fin 0 := rfl

@[simp] lemma isNan_nan : (nan : PVal α).isNan = true := rfl

@[simp] lemma isNan_fin (x : α) : (fin x).isNan = false := rfl

@[simp] lemma isNan_inf (b : Bool) : (inf b : PVal α).isNan = false := rfl

@[simp] lemma map_nan {β : Type} (f : α → β) : map f nan = nan := rfl

@[simp] lemma map_fin {β : Type} (f : α → β) (x : α) : map f (fin x) = fin (f x) := rfl

@[simp] lemma maxSkipNa_fin_nan (x : α) : maxSkipNa (fin x) nan = fin x := rfl

@[simp] lemma maxSkipNa_nan (v : PVal α) : maxSkipNa nan v = v := rfl

@[simp] lemma maxSkipNa_fin_fin (x y : α) : maxSkipNa (fin x) (fin y) = fin (max x y) := rfl

@[simp] lemma absP_nan : (nan : PVal α).absP = nan := rfl

@[simp] lemma absP_fin (x : α) : (fin x).absP = fin |x| := rfl

end PVal

@[simp] lemma sumP_nil : sumP [] = PVal.fin 0 := rfl

@[simp] lemma sumP_cons (v : PVal ℚ) (l : List (PVal ℚ)) :
    sumP (v :: l) = v.add (sumP l) := rfl

lemma sumP_map_fin (l : List ℚ) : sumP (l.map PVal.fin) = PVal.fin l.sum := by
  induction l with
  | nil => rfl
  | cons x rest ih => simp [ih]

/-- Membership characterization of zipWith, used to decompose cells of
elementwise Series operations. -/
lemma mem_zipWith {α β γ : Type} {f : α → β → γ} :
    ∀ {l1 : List α} {l2 : List β} {c : γ}, c ∈ List.zipWith f l1 l2 →
      ∃ a b, a ∈ l1 ∧ b ∈ l2 ∧ c = f a b
  | [], _, c => by simp
  | _ :: _, [], c => by simp
  | a :: l1, b :: l2, c => by
    intro hc
    rcases List.mem_cons.mp hc with h | h
    · exact ⟨a, b, List.mem_cons_self a l1, List.mem_cons_self b l2, h⟩
    · rcases mem_zipWith h with ⟨a', b', ha, hb, rfl⟩
      exact ⟨a', b', List.mem_cons_of_mem _ ha, List.mem_cons_of_mem _ hb, rfl⟩

lemma zipWith_get?_some {α β γ : Type} (f : α → β → γ) :
    ∀ (l1 : List α) (l2 : List β) (i : ℕ) (a : α) (b : β),
      l1.get? i = some a → l2.get? i = some b →
      (List.zipWith f l1 l2).get? i = some (f a b) := by
  intro l1
  induction l1 with
  | nil => intro l2 i a b ha; simp at ha
  | cons x l1 ih =>
    intro l2 i a b ha hb
    cases l2 with
    | nil => simp at hb
    | cons y l2 =>
      cases i with
      | zero => simp_all
      | succ j =>
        simp only [List.get?_cons_succ] at ha hb ⊢
        simp only [List.zipWith_cons_cons, List.get?_cons_succ]
        exact ih l2 j a b ha hb

lemma get?_eq_some_getD {α : Type} {l : List α} {i : ℕ} (d : α) (h : i < l.length) :
    l.get? i = some (l.getD i d) := by
  rw [List.getD_eq_get?]
  rcases List.get?_eq_get h with h'
  rw [h']
  rfl

lemma rollingMean_length (d : List (PVal ℚ)) (w : ℕ) :
    (rollingMean d w).length = d.length := by
  simp [rollingMean]

lemma rollingMean_get? (d : List (PVal ℚ)) (w i : ℕ) (h : i < d.length) :
    (rollingMean d w).get? i =
      some (if i + 1 < w then PVal.nan
        else PVal.div (sumP ((d.drop (i + 1 - w)).take w)) (PVal.fin w)) := by
  unfold rollingMean
  rw [List.get?_map, List.get?_range h]
  rfl

lemma rollingMean_get?_nan {d : List (PVal ℚ)} {w i : ℕ} (h : i < d.length)
    (hi : i + 1 < w) : (rollingMean d w).get? i = some PVal.nan := by
  rw [rollingMean_get? d w i h, if_pos hi]

lemma slice_map_fin (l : List ℚ) (a b : ℕ) :
    ((l.map PVal.fin).drop a).take b = ((l.drop a).take b).map PVal.fin := by
  rw [← List.map_drop, ← List.map_take]

lemma rollingMean_map_fin_get? {l : List ℚ} {w i : ℕ} (hw : 1 ≤ w)
    (h : i < l.length) (hi : w - 1 ≤ i) :
    (rollingMean (l.map PVal.fin) w).get? i =
      some (PVal.fin (((l.drop (i + 1 - w)).take w).sum / (w : ℚ))) := by
  have hlen : i < (l.map PVal.fin).length := by simpa using h
  rw [rollingMean_get? _ w i hlen]
  have hnot : ¬ (i + 1 < w) := by omega
  rw [if_neg hnot, slice_map_fin, sumP_map_fin,
    PVal.div_fin_fin_of_ne _ (Nat.cast_ne_zero.mpr (by omega))]

lemma shift1_length (d : List (PVal ℚ)) : (shift1 d).length = d.length := by
  simp [shift1]

lemma shift1_get?_zero {d : List (PVal ℚ)} (h : 0 < d.length) :
    (shift1 d).get? 0 = some PVal.nan := by
  unfold shift1
  rw [List.get?_take h]
  rfl

lemma shift1_get?_succ {d : List (PVal ℚ)} {i : ℕ} (h : i + 1 < d.length) :
    (shift1 d).get? (i + 1) = d.get? i := by
  unfold shift1
  rw [List.get?_take h]
  rfl

lemma diffP_length (d : List (PVal ℚ)) : (diffP d).length = d.length := by
  simp [diffP, shift1_length]

lemma diffP_map_fin_get?_zero {l : List ℚ} (h : 0 < l.length) :
    (diffP (l.map PVal.fin)).get? 0 = some PVal.nan := by
  have h' : 0 < (l.map PVal.fin).length := by simpa using h
  have hx : (l.map PVal.fin).get? 0 = some (PVal.fin (l.getD 0 0)) := by
    rw [List.get?_map, get?_eq_some_getD (0 : ℚ) h]
    rfl
  rw [diffP, zipWith_get?_some PVal.sub _ _ 0 _ _ hx (shift1_get?_zero h')]
  rfl

lemma diffP_map_fin_get?_succ {l : List ℚ} {i : ℕ} (h : i + 1 < l.length) :
    (diffP (l.map PVal.fin)).get? (i + 1) =
      some (PVal.fin (l.getD (i + 1) 0 - l.getD i 0)) := by
  have h' : i + 1 < (l.map PVal.fin).length := by simpa using h
  have hx : (l.map PVal.fin).get? (i + 1) = some (PVal.fin (l.getD (i + 1) 0)) := by
    rw [List.get?_map, get?_eq_some_getD (0 : ℚ) h]
    rfl
  have hy : (shift1 (l.map PVal.fin)).get? (i + 1) = some (PVal.fin (l.getD i 0)) := by
    rw [shift1_get?_succ h', List.get?_map, get?_eq_some_getD (0 : ℚ) (by omega)]
    rfl
  rw [diffP, zipWith_get?_some PVal.sub _ _ (i + 1) _ _ hx hy]
  simp

/-- Cells of the differenced Series of a finite input are NaN or finite. -/
lemma diffP_map_fin_cells {l : List ℚ} {v : PVal ℚ} (hv : v ∈ diffP (l.map PVal.fin)) :
    v = PVal.nan ∨ ∃ q : ℚ, v = PVal.fin q := by
  rcases mem_zipWith hv with ⟨a, b, ha, hb, rfl⟩
  rcases List.mem_map.mp ha with ⟨x, _, rfl⟩
  have hb' : b ∈ PVal.nan :: l.map PVal.fin :=
    List.mem_of_mem_take (by simpa [shift1] using hb)
  rcases List.mem_cons.mp hb' with rfl | hb''
  · exact Or.inl rfl
  · rcases List.mem_map.mp hb'' with ⟨y, _, rfl⟩
    exact Or.inr ⟨x - y, by simp⟩

lemma gain_nonneg (l : List ℚ) : NonnegFin (gain (l.map PVal.fin)) := by
  intro v hv
  rcases List.mem_map.mp hv with ⟨d, hd, rfl⟩
  rcases diffP_map_fin_cells hd with rfl | ⟨q, rfl⟩
  · exact ⟨0, by simp [PVal.gtZero], le_refl 0⟩
  · by_cases hq : 0 < q
    · exact ⟨q, by simp [PVal.gtZero, hq], hq.le⟩
    · exact ⟨0, by simp [PVal.gtZero, hq], le_refl 0⟩

lemma loss_nonneg (l : List ℚ) : NonnegFin (loss (l.map PVal.fin)) := by
  intro v hv
  rcases List.mem_map.mp hv with ⟨u, hu, rfl⟩
  rcases List.mem_map.mp hu with ⟨d, hd, rfl⟩
  rcases diffP_map_fin_cells hd with rfl | ⟨q, rfl⟩
  · exact ⟨0, by simp [PVal.ltZero], le_refl 0⟩
  · by_cases hq : q < 0
    · exact ⟨-q, by simp [PVal.ltZero, hq], by linarith⟩
    · exact ⟨0, by simp [PVal.ltZero, hq], le_refl 0⟩

lemma sumP_nonneg {l : List (PVal ℚ)} (h : NonnegFin l) :
    ∃ s : ℚ, sumP l = PVal.fin s ∧ 0 ≤ s := by
  induction l with
  | nil => exact ⟨0, rfl, le_refl 0⟩
  | cons v rest ih =>
    obtain ⟨q, hv, hq⟩ := h v (List.mem_cons_self v rest)
    rcases ih (fun u hu => h u (List.mem_cons_of_mem v hu)) with ⟨s, hs, hs0⟩
    exact ⟨q + s, by simp [hv, hs], by linarith⟩

/-- Cells of a rolling mean of a nonnegative finite Series are NaN or finite
nonnegative. -/
lemma rollingMean_nonneg_cells {d : List (PVal ℚ)} {w : ℕ} (hd : NonnegFin d)
    {v : PVal ℚ} (hv : v ∈ rollingMean d w) :
    v = PVal.nan ∨ ∃ q : ℚ, v = PVal.fin q ∧ 0 ≤ q := by
  rcases List.mem_map.mp hv with ⟨i, _, rfl⟩
  by_cases hi : i + 1 < w
  · simp [hi]
  · rw [if_neg hi]
    by_cases hw : w = 0
    · subst hw
      left
      simp
    · have hslice : NonnegFin ((d.drop (i + 1 - w)).take w) := by
        intro u hu
        exact hd u (List.mem_of_mem_drop (List.mem_of_mem_take hu))
      rcases sumP_nonneg hslice with ⟨s, hs, hs0⟩
      rw [hs]
      right
      have hw' : ((w : ℚ)) ≠ 0 := by exact_mod_cast hw
      rw [PVal.div_fin_fin_of_ne _ hw']
      exact ⟨s / w, rfl, div_nonneg hs0 (by positivity)⟩

lemma gain_length (l : List ℚ) : (gain (l.map PVal.fin)).length = l.length := by
  simp [gain, diffP_length]

lemma loss_length (l : List ℚ) : (loss (l.map PVal.fin)).length = l.length := by
  simp [loss, diffP_length]

lemma rsi_cell_nan :
    PVal.sub (PVal.fin 100) (PVal.div (PVal.fin 100) (PVal.add (PVal.fin 1) (PVal.nan : PVal ℚ)))
      = PVal.nan := by
  simp

lemma rsi_cell_inf (b : Bool) :
    PVal.sub (PVal.fin 100) (PVal.div (PVal.fin 100) (PVal.add (PVal.fin 1) (PVal.inf b : PVal ℚ)))
      = PVal.fin 100 := by
  simp

lemma rsi_cell_fin {q : ℚ} (hq : 0 ≤ q) :
    PVal.sub (PVal.fin 100) (PVal.div (PVal.fin 100) (PVal.add (PVal.fin 1) (PVal.fin q)))
      = PVal.fin (100 - 100 / (1 + q)) := by
  have h1 : (1 : ℚ) + q ≠ 0 := by positivity
  simp [PVal.div_fin_fin_of_ne _ h1]

/-- Claim C7: wherever calculate_rsi produces a finite value, that value lies
between 0 and 100. -/
theorem C7_rsi_bounded (close : List ℚ) (window : ℕ) (i : ℕ) (r : ℚ)
    (h : (calculate_rsi (close.map PVal.fin) window).get? i = some (PVal.fin r)) :
    0 ≤ r ∧ r ≤ 100 := by
  have hmem : PVal.fin r ∈ calculate_rsi (close.map PVal.fin) window := List.get?_mem h
  simp only [calculate_rsi] at hmem
  rcases List.mem_map.mp hmem with ⟨x, hx, hfx⟩
  rcases mem_zipWith hx with ⟨a, b, ha, hb, rfl⟩
  rcases rollingMean_nonneg_cells (gain_nonneg close) ha with rfl | ⟨g, rfl, hg⟩
  · simp at hfx
  rcases rollingMean_nonneg_cells (loss_nonneg close) hb with rfl | ⟨l, rfl, hl⟩
  · simp at hfx
  by_cases hl0 : l = 0
  · subst hl0
    by_cases hg0 : g = 0
    · subst hg0
      simp at hfx
    · rw [PVal.div_fin_fin_zero_of_ne hg0, rsi_cell_inf] at hfx
      obtain rfl : (100 : ℚ) = r := PVal.fin.inj hfx
      norm_num
  · have hlpos : 0 < l := lt_of_le_of_ne hl (Ne.symm hl0)
    rw [PVal.div_fin_fin_of_ne _ hl0, rsi_cell_fin (div_nonneg hg hl)] at hfx
    obtain rfl : 100 - 100 / (1 + g / l) = r := PVal.fin.inj hfx
    have hq : (0 : ℚ) ≤ g / l := div_nonneg hg hl
    have h1 : (0 : ℚ) < 1 + g / l := by linarith
    constructor
    · have : 100 / (1 + g / l) ≤ 100 / 1 := by
        apply div_le_div_of_nonneg_left (by norm_num) (by norm_num) (by linarith)
      simp at this
      linarith
    · have : 0 < 100 / (1 + g / l) := by positivity
      linarith

/-- Witness for C7: on the series 1, 2, 3 with window 2, the RSI at position 2
is the finite value 100, and the theorem bounds it by 0 and 100. -/
theorem C7_rsi_bounded_witness :
    (calculate_rsi ([1, 2, 3].map PVal.fin) 2).get? 2 = some (PVal.fin 100) ∧
      (0 : ℚ) ≤ 100 ∧ (100 : ℚ) ≤ 100 := by
  have h : (calculate_rsi ([1, 2, 3].map PVal.fin) 2).get? 2 = some (PVal.fin 100) := by
    norm_num [calculate_rsi, avg_gain, avg_loss, gain, loss, diffP, shift1, rollingMean,
      sumP, List.range_succ, PVal.sub, PVal.add, PVal.div, PVal.neg, PVal.gtZero, PVal.ltZero]
  exact ⟨h, C7_rsi_bounded [1, 2, 3] 2 2 100 h⟩

/-- Claim C9: at a position where both rolling averages are defined and zero
(a fully flat trailing window), the RSI cell is the no-value marker NaN, the
0/0 indeterminate form propagating as undefined; in particular it is neither
50 nor 100. -/
theorem C9_flat_window_nan (close : List ℚ) (window i : ℕ)
    (hg : (avg_gain (close.map PVal.fin) window).get? i = some (PVal.fin 0))
    (hl : (avg_loss (close.map PVal.fin) window).get? i = some (PVal.fin 0)) :
    (calculate_rsi (close.map PVal.fin) window).get? i = some PVal.nan ∧
      (PVal.nan : PVal ℚ) ≠ PVal.fin 50 ∧ (PVal.nan : PVal ℚ) ≠ PVal.fin 100 := by
  refine ⟨?_, by simp, by simp⟩
  simp only [calculate_rsi]
  rw [List.get?_map, zipWith_get?_some PVal.div _ _ i _ _ hg hl,
    PVal.div_fin_fin_zero_zero]
  simp

/-- Witness for C9: the constant series 5, 5 with window 1 has both rolling
averages equal to 0 at position 0, and the RSI there is NaN. -/
theorem C9_flat_window_nan_witness :
    (calculate_rsi ([5, 5].map PVal.fin) 1).get? 0 = some PVal.nan := by
  have hg : (avg_gain ([5, 5].map PVal.fin) 1).get? 0 = some (PVal.fin 0) := by
    norm_num [avg_gain, gain, diffP, shift1, rollingMean, sumP, List.range_succ,
      PVal.sub, PVal.add, PVal.div, PVal.neg, PVal.gtZero]
  have hl : (avg_loss ([5, 5].map PVal.fin) 1).get? 0 = some (PVal.fin 0) := by
    norm_num [avg_loss, loss, diffP, shift1, rollingMean, sumP, List.range_succ,
      PVal.sub, PVal.add, PVal.div, PVal.neg, PVal.ltZero]
  exact (C9_flat_window_nan [5, 5] 1 0 hg hl).1

/-- Claim C4 as amended: at a position where both rolling averages are
defined, avg_loss is 0 and avg_gain is nonzero, the RSI cell is the finite
value 100 (the division by zero yields an infinity that the saturation
formula turns into 100, with no fault). The amendment adds the requirement
avg_gain different from 0: on a fully flat trailing window both averages are
0 and the 0/0 division makes the cell NaN instead of 100. -/
theorem C4_avg_loss_zero_amended (close : List ℚ) (window i : ℕ) (g : ℚ)
    (hg0 : g ≠ 0)
    (hg : (avg_gain (close.map PVal.fin) window).get? i = some (PVal.fin g))
    (hl : (avg_loss (close.map PVal.fin) window).get? i = some (PVal.fin 0)) :
    (calculate_rsi (close.map PVal.fin) window).get? i = some (PVal.fin 100) := by
  simp only [calculate_rsi]
  rw [List.get?_map, zipWith_get?_some PVal.div _ _ i _ _ hg hl,
    PVal.div_fin_fin_zero_of_ne hg0]
  rw [Option.map_some']
  rw [rsi_cell_inf]

/-- Witness for C4: on the series 1, 2 with window 1, position 1 has
avg_gain 1, avg_loss 0, and RSI 100. -/
theorem C4_avg_loss_zero_amended_witness :
    (calculate_rsi ([1, 2].map PVal.fin) 1).get? 1 = some (PVal.fin 100) := by
  refine C4_avg_loss_zero_amended [1, 2] 1 1 1 (by norm_num) ?_ ?_
  · norm_num [avg_gain, gain, diffP, shift1, rollingMean, sumP, List.range_succ,
      PVal.sub, PVal.add, PVal.div, PVal.neg, PVal.gtZero]
  · norm_num [avg_loss, loss, diffP, shift1, rollingMean, sumP, List.range_succ,
      PVal.sub, PVal.add, PVal.div, PVal.neg, PVal.ltZero]

/-- Counterexample to claim C4 as stated: on the constant series 5, 5 with
window 1, position 0 has both rolling averages defined with avg_loss = 0
(every delta in the trailing window is non-negative), yet the RSI cell is
NaN, not the well-defined value 100. -/
theorem C4_counterexample :
    (avg_gain [PVal.fin 5, PVal.fin 5] 1).get? 0 = some (PVal.fin 0) ∧
    (avg_loss [PVal.fin 5, PVal.fin 5] 1).get? 0 = some (PVal.fin 0) ∧
    (calculate_rsi [PVal.fin 5, PVal.fin 5] 1).get? 0 = some PVal.nan ∧
    (PVal.nan : PVal ℚ) ≠ PVal.fin 100 := by
  refine ⟨?_, ?_, ?_, by simp⟩ <;>
    norm_num [avg_gain, avg_loss, calculate_rsi, gain, loss, diffP, shift1,
      rollingMean, sumP, List.range_succ, PVal.sub, PVal.add, PVal.div, PVal.neg,
      PVal.gtZero, PVal.ltZero]

/-- The RSI cell is NaN at every position of the rolling-mean warm-up
prefix. -/
lemma rsi_prefix_nan (close : List ℚ) (window i : ℕ)
    (h : i < close.length) (hi : i < window - 1) :
    (calculate_rsi (close.map PVal.fin) window).get? i = some PVal.nan := by
  have hi' : i + 1 < window := by omega
  have hg : (avg_gain (close.map PVal.fin) window).get? i = some PVal.nan :=
    rollingMean_get?_nan (by rw [gain_length]; exact h) hi'
  have hl : (avg_loss (close.map PVal.fin) window).get? i = some PVal.nan :=
    rollingMean_get?_nan (by rw [loss_length]; exact h) hi'
  simp only [calculate_rsi]
  rw [List.get?_map, zipWith_get?_some PVal.div _ _ i _ _ hg hl]
  simp

/-- Claim C2 as amended: the RSI output is the no-value marker at each of the
first window - 1 positions (the prefix inherited from the rolling mean). The
amendment shortens the undefined prefix from window to window - 1: the
where-masking replaces the undefined leading difference by 0, so the
differencing step does not extend the rolling-mean prefix, and position
window - 1 is generically defined. -/
theorem C2_rsi_undefined_prefix_amended (close : List ℚ) (window i : ℕ)
    (h : i < close.length) (hi : i < window - 1) :
    (calculate_rsi (close.map PVal.fin) window).get? i = some PVal.nan :=
  rsi_prefix_nan close window i h hi

/-- Witness for the amended C2: on the series 1, 2, 3 with window 3, position
1 lies in the undefined prefix and the RSI cell there is NaN. -/
theorem C2_rsi_undefined_prefix_amended_witness :
    (calculate_rsi ([1, 2, 3].map PVal.fin) 3).get? 1 = some PVal.nan :=
  C2_rsi_undefined_prefix_amended [1, 2, 3] 3 1 (by norm_num) (by norm_num)

/-- Counterexample to claim C2 as stated: with window 2 the claim says
positions 0 and 1 are both the no-value marker, but on the series 1, 2, 3 the
RSI cell at position 1 is the finite value 100 (the rolling averages are
already defined there because the masked leading difference counts as an
observation of value 0). -/
theorem C2_counterexample :
    (calculate_rsi ([1, 2, 3].map PVal.fin) 2).get? 1 = some (PVal.fin 100) ∧
    PVal.fin (100 : ℚ) ≠ PVal.nan := by
  refine ⟨?_, by simp⟩
  norm_num [calculate_rsi, avg_gain, avg_loss, gain, loss, diffP, shift1,
    rollingMean, sumP, List.range_succ, PVal.sub, PVal.add, PVal.div, PVal.neg,
    PVal.gtZero, PVal.ltZero]

/-- Claim C1: the moving average has the input's length; position i is the
arithmetic mean of the window ending at i once i is at least window - 1 and
the no-value marker NaN before that; a window larger than the series length
makes the whole output NaN (a legitimate degenerate result, not an error);
and window 1 returns the input Series unchanged. -/
theorem C1_moving_average_spec (close : List ℚ) (window : ℕ) (hw : 1 ≤ window) :
    (calculate_moving_average (close.map PVal.fin) window).length = close.length ∧
    (∀ i, i < close.length → window - 1 ≤ i →
      (calculate_moving_average (close.map PVal.fin) window).get? i =
        some (PVal.fin (((close.drop (i + 1 - window)).take window).sum / (window : ℚ)))) ∧
    (∀ i, i < close.length → i < window - 1 →
      (calculate_moving_average (close.map PVal.fin) window).get? i = some PVal.nan) ∧
    (close.length < window → ∀ i, i < close.length →
      (calculate_moving_average (close.map PVal.fin) window).get? i = some PVal.nan) ∧
    (window = 1 → calculate_moving_average (close.map PVal.fin) 1 = close.map PVal.fin) := by
  refine ⟨?_, ?_, ?_, ?_, ?_⟩
  · simp [calculate_moving_average, rollingMean_length]
  · intro i h hi
    exact rollingMean_map_fin_get? hw h hi
  · intro i h hi
    exact rollingMean_get?_nan (by simpa using h) (by omega)
  · intro hlen i h
    exact rollingMean_get?_nan (by simpa using h) (by omega)
  · intro _
    apply List.ext_get?
    intro n
    by_cases hn : n < close.length
    · rw [calculate_moving_average, rollingMean_map_fin_get? (le_refl 1) hn (by omega)]
      have hdrop : close.drop n = close.getD n 0 :: close.drop (n + 1) := by
        rw [List.drop_eq_getElem_cons hn]
        congr 1
        rw [List.getD_eq_get?, List.get?_eq_get hn]
        rfl
      rw [List.get?_map, get?_eq_some_getD (0 : ℚ) hn]
      simp only [Nat.add_sub_cancel]
      rw [hdrop]
      simp
    · have h1 : (rollingMean (close.map PVal.fin) 1).get? n = none := by
        rw [List.get?_eq_none, rollingMean_length]
        simpa using not_lt.mp hn
      have h2 : (close.map PVal.fin).get? n = none := by
        rw [List.get?_eq_none]
        simpa using not_lt.mp hn
      rw [calculate_moving_average, h1, h2]

/-- Witness for C1: on the series 1, 2, 3 with window 2, position 1 holds the
mean of the first two values. -/
theorem C1_moving_average_spec_witness :
    (calculate_moving_average ([1, 2, 3].map PVal.fin) 2).get? 1 =
      some (PVal.fin (((([1, 2, 3] : List ℚ).drop (1 + 1 - 2)).take 2).sum / ((2 : ℕ) : ℚ))) :=
  (C1_moving_average_spec [1, 2, 3] 2 (by norm_num)).2.1 1 (by norm_num) (by norm_num)

lemma ewm_step_fin (a p x : ℚ) :
    PVal.div (PVal.add (PVal.mul (PVal.fin (1 * (1 - a))) (PVal.fin p))
        (PVal.mul (PVal.fin a) (PVal.fin x))) (PVal.fin (1 * (1 - a) + a))
      = PVal.fin (a * x + (1 - a) * p) := by
  have h1 : 1 * (1 - a) + a = 1 := by ring
  rw [PVal.mul_fin_fin, PVal.mul_fin_fin, PVal.add_fin_fin, h1,
    PVal.div_fin_fin_of_ne _ one_ne_zero]
  congr 1
  field_simp
  ring

lemma ewmMeanGo_map_fin (a : ℚ) :
    ∀ (l : List ℚ) (p : ℚ),
      ewmMeanGo a (PVal.fin p) 1 (l.map PVal.fin) = (emaSpecGo a p l).map PVal.fin := by
  intro l
  induction l with
  | nil => intro p; rfl
  | cons x rest ih =>
    intro p
    simp only [List.map_cons, ewmMeanGo, emaSpecGo, PVal.isNan_fin, Bool.false_eq_true,
      if_false, ewm_step_fin]
    rw [ih (a * x + (1 - a) * p)]

lemma ewmMean_map_fin (l : List ℚ) (span : ℕ) :
    ewmMean (l.map PVal.fin) span = (emaSpec l span).map PVal.fin := by
  cases l with
  | nil => rfl
  | cons x rest =>
    simp only [List.map_cons, ewmMean, emaSpec]
    rw [ewmMeanGo_map_fin]

lemma emaSpecGo_length (a : ℚ) :
    ∀ (l : List ℚ) (p : ℚ), (emaSpecGo a p l).length = l.length := by
  intro l
  induction l with
  | nil => intro p; rfl
  | cons x rest ih =>
    intro p
    simp only [emaSpecGo, List.length_cons, ih]

lemma emaSpec_length (l : List ℚ) (s : ℕ) : (emaSpec l s).length = l.length := by
  cases l with
  | nil => rfl
  | cons x rest => simp [emaSpec, emaSpecGo_length]

lemma emaSpecGo_get? (a : ℚ) :
    ∀ (l : List ℚ) (p : ℚ) (i : ℕ), i < l.length →
      (emaSpecGo a p l).get? i =
        some (a * l.getD i 0 + (1 - a) * ((p :: emaSpecGo a p l).getD i 0)) := by
  intro l
  induction l with
  | nil => intro p i h; simp at h
  | cons x rest ih =>
    intro p i h
    cases i with
    | zero => simp [emaSpecGo]
    | succ j =>
      simp only [emaSpecGo, List.get?_cons_succ, List.getD_cons_succ]
      exact ih (a * x + (1 - a) * p) j (by simpa using h)

lemma emaSpec_get?_zero (l : List ℚ) (s : ℕ) : (emaSpec l s).get? 0 = l.get? 0 := by
  cases l with
  | nil => rfl
  | cons x rest => rfl

lemma emaSpec_rec (l : List ℚ) (s : ℕ) (i : ℕ) (h : i + 1 < l.length) :
    (emaSpec l s).get? (i + 1) =
      some ((2 / ((s : ℚ) + 1)) * l.getD (i + 1) 0 +
        (1 - 2 / ((s : ℚ) + 1)) * (emaSpec l s).getD i 0) := by
  cases l with
  | nil => simp at h
  | cons x rest =>
    simp only [emaSpec, List.get?_cons_succ, List.getD_cons_succ]
    rw [emaSpecGo_get? (2 / ((s : ℚ) + 1)) rest x i (by simpa using h)]

lemma zipWith_sub_map_fin (l1 : List ℚ) :
    ∀ l2 : List ℚ,
      List.zipWith PVal.sub (l1.map PVal.fin) (l2.map PVal.fin) =
        (List.zipWith (fun x y => x - y) l1 l2).map PVal.fin := by
  induction l1 with
  | nil => intro l2; simp
  | cons x rest ih =>
    intro l2
    cases l2 with
    | nil => simp
    | cons y l2 => simp [ih l2]

lemma zipWith_sub_getD (l1 l2 : List ℚ) (i : ℕ) (h1 : i < l1.length)
    (h2 : i < l2.length) :
    (List.zipWith (fun x y => x - y) l1 l2).getD i 0 = l1.getD i 0 - l2.getD i 0 := by
  have h := zipWith_get?_some (fun x y => x - y) l1 l2 i _ _
    (get?_eq_some_getD 0 h1) (get?_eq_some_getD 0 h2)
  rw [List.getD_eq_get?, h]
  rfl

lemma map_fin_getD_isNan (l : List ℚ) (i : ℕ) (h : i < l.length) :
    ((l.map PVal.fin).getD i PVal.nan).isNan = false := by
  rw [List.getD_eq_get?, List.get?_map, get?_eq_some_getD (0 : ℚ) h]
  rfl

/-- Claim C5: calculate_macd returns three sequences of the input's length,
fully defined (finite, never NaN) at every index including 0; the MACD line
is the pointwise difference of the non-adjusted EMAs of the input (the EMA
satisfying ema[0] = close[0] and ema[i] = alpha*close[i] + (1-alpha)*ema[i-1]
with alpha = 2/(span+1)); the signal line is the same recursion applied to
the MACD line with span = signal_period seeded by its first value; and the
histogram is exactly the pointwise difference of MACD line and signal
line. -/
theorem C5_macd_spec (close : List ℚ) (fast_period slow_period signal_period : ℕ) :
    calculate_macd (close.map PVal.fin) fast_period slow_period signal_period =
      ((macdLineSpec close fast_period slow_period).map PVal.fin,
       (emaSpec (macdLineSpec close fast_period slow_period) signal_period).map PVal.fin,
       (List.zipWith (fun x y => x - y) (macdLineSpec close fast_period slow_period)
          (emaSpec (macdLineSpec close fast_period slow_period) signal_period)).map
         PVal.fin) ∧
    (macdLineSpec close fast_period slow_period).length = close.length ∧
    (emaSpec (macdLineSpec close fast_period slow_period) signal_period).length
      = close.length ∧
    (∀ i, i < close.length →
      (((calculate_macd (close.map PVal.fin) fast_period slow_period
          signal_period).1.getD i PVal.nan).isNan = false ∧
       ((calculate_macd (close.map PVal.fin) fast_period slow_period
          signal_period).2.1.getD i PVal.nan).isNan = false ∧
       ((calculate_macd (close.map PVal.fin) fast_period slow_period
          signal_period).2.2.getD i PVal.nan).isNan = false)) ∧
    (∀ (xs : List ℚ) (sp : ℕ), (emaSpec xs sp).get? 0 = xs.get? 0) ∧
    (∀ (xs : List ℚ) (sp : ℕ) (i : ℕ), i + 1 < xs.length →
      (emaSpec xs sp).get? (i + 1) =
        some ((2 / ((sp : ℚ) + 1)) * xs.getD (i + 1) 0 +
          (1 - 2 / ((sp : ℚ) + 1)) * (emaSpec xs sp).getD i 0)) ∧
    (∀ i, i < close.length →
      (List.zipWith (fun x y => x - y) (macdLineSpec close fast_period slow_period)
          (emaSpec (macdLineSpec close fast_period slow_period) signal_period)).getD i 0 =
        (macdLineSpec close fast_period slow_period).getD i 0 -
          (emaSpec (macdLineSpec close fast_period slow_period) signal_period).getD i 0)
    := by
  have hmacd : List.zipWith PVal.sub (ewmMean (close.map PVal.fin) fast_period)
      (ewmMean (close.map PVal.fin) slow_period) =
      (macdLineSpec close fast_period slow_period).map PVal.fin := by
    rw [ewmMean_map_fin, ewmMean_map_fin, zipWith_sub_map_fin]
    rfl
  have heq : calculate_macd (close.map PVal.fin) fast_period slow_period signal_period =
      ((macdLineSpec close fast_period slow_period).map PVal.fin,
       (emaSpec (macdLineSpec close fast_period slow_period) signal_period).map PVal.fin,
       (List.zipWith (fun x y => x - y) (macdLineSpec close fast_period slow_period)
          (emaSpec (macdLineSpec close fast_period slow_period) signal_period)).map
         PVal.fin) := by
    simp only [calculate_macd]
    rw [hmacd, ewmMean_map_fin, zipWith_sub_map_fin]
  have hlen : (macdLineSpec close fast_period slow_period).length = close.length := by
    simp [macdLineSpec, emaSpec_length]
  have hlen2 : (emaSpec (macdLineSpec close fast_period slow_period)
      signal_period).length = close.length := by
    rw [emaSpec_length, hlen]
  refine ⟨heq, hlen, hlen2, ?_, ?_, ?_, ?_⟩
  · intro i hi
    rw [heq]
    have hlen3 : (List.zipWith (fun x y => x - y)
        (macdLineSpec close fast_period slow_period)
        (emaSpec (macdLineSpec close fast_period slow_period) signal_period)).length
        = close.length := by
      rw [List.length_zipWith, hlen, hlen2, min_self]
    exact ⟨map_fin_getD_isNan _ i (by rw [hlen]; exact hi),
      map_fin_getD_isNan _ i (by rw [hlen2]; exact hi),
      map_fin_getD_isNan _ i (by rw [hlen3]; exact hi)⟩
  · intro xs sp
    exact emaSpec_get?_zero xs sp
  · intro xs sp i h
    exact emaSpec_rec xs sp i h
  · intro i hi
    exact zipWith_sub_getD _ _ i (by rw [hlen]; exact hi) (by rw [hlen2]; exact hi)

/-- Witness for C5: the refinement equation evaluated on the series 1, 2 with
periods 1, 2, 1, and the EMA recursion of the spec exercised at position 1 of
the series 3, 5 with span 2. -/
theorem C5_macd_spec_witness :
    calculate_macd ([1, 2].map PVal.fin) 1 2 1 =
      ((macdLineSpec [1, 2] 1 2).map PVal.fin,
       (emaSpec (macdLineSpec [1, 2] 1 2) 1).map PVal.fin,
       (List.zipWith (fun x y => x - y) (macdLineSpec [1, 2] 1 2)
          (emaSpec (macdLineSpec [1, 2] 1 2) 1)).map PVal.fin) ∧
    (emaSpec [3, 5] 2).get? (0 + 1) =
      some ((2 / (((2 : ℕ) : ℚ) + 1)) * ([3, 5] : List ℚ).getD (0 + 1) 0 +
        (1 - 2 / (((2 : ℕ) : ℚ) + 1)) * (emaSpec [3, 5] 2).getD 0 0) :=
  ⟨(C5_macd_spec [1, 2] 1 2 1).1,
    (C5_macd_spec [1, 2] 1 2 1).2.2.2.2.2.1 [3, 5] 2 0 (by norm_num)⟩

lemma map_fin_get? (l : List ℚ) {n : ℕ} (h : n < l.length) :
    (l.map PVal.fin).get? n = some (PVal.fin (l.getD n 0)) := by
  rw [List.get?_map, get?_eq_some_getD (0 : ℚ) h]
  rfl

lemma trSpec_get? (hq lq cq : List ℚ) (n : ℕ) (h : n < hq.length) :
    (trSpec hq lq cq).get? n =
      some (if n = 0 then hq.getD 0 0 - lq.getD 0 0
        else max (max (hq.getD n 0 - lq.getD n 0) |hq.getD n 0 - cq.getD (n - 1) 0|)
            |lq.getD n 0 - cq.getD (n - 1) 0|) := by
  unfold trSpec
  rw [List.get?_map, List.get?_range h]
  rfl

lemma trSpec_length (hq lq cq : List ℚ) : (trSpec hq lq cq).length = hq.length := by
  simp [trSpec]

lemma replicate_getD {n m : ℕ} (q : ℚ) (h : m < n) :
    (List.replicate n q).getD m 0 = q := by
  rw [List.getD_eq_get?, List.get?_eq_getElem?, List.getElem?_replicate, if_pos h]
  rfl

/-- The row-maximum Series built inside calculate_atr coincides, cell by
cell, with the spec's true-range sequence on finite inputs of equal
length. -/
lemma atr_tr_eq (hq lq cq : List ℚ) (h1 : hq.length = lq.length)
    (h2 : lq.length = cq.length) :
    List.zipWith PVal.maxSkipNa
      (List.zipWith PVal.maxSkipNa
        (List.zipWith PVal.sub (hq.map PVal.fin) (lq.map PVal.fin))
        ((List.zipWith PVal.sub (hq.map PVal.fin) (shift1 (cq.map PVal.fin))).map PVal.absP))
      ((List.zipWith PVal.sub (lq.map PVal.fin) (shift1 (cq.map PVal.fin))).map PVal.absP)
      = (trSpec hq lq cq).map PVal.fin := by
  apply List.ext_get?
  intro n
  by_cases hn : n < hq.length
  · have hnl : n < lq.length := by omega
    have hnc : n < cq.length := by omega
    have hncm : n < (cq.map PVal.fin).length := by simpa using hnc
    have e1 : (List.zipWith PVal.sub (hq.map PVal.fin) (lq.map PVal.fin)).get? n =
        some (PVal.fin (hq.getD n 0 - lq.getD n 0)) := by
      rw [zipWith_get?_some PVal.sub _ _ n _ _ (map_fin_get? hq hn) (map_fin_get? lq hnl)]
      simp
    cases n with
    | zero =>
      have hsh : (shift1 (cq.map PVal.fin)).get? 0 = some PVal.nan :=
        shift1_get?_zero (by simpa using hnc)
      have e2 : ((List.zipWith PVal.sub (hq.map PVal.fin)
          (shift1 (cq.map PVal.fin))).map PVal.absP).get? 0 = some PVal.nan := by
        rw [List.get?_map,
          zipWith_get?_some PVal.sub _ _ 0 _ _ (map_fin_get? hq hn) hsh]
        rfl
      have e3 : ((List.zipWith PVal.sub (lq.map PVal.fin)
          (shift1 (cq.map PVal.fin))).map PVal.absP).get? 0 = some PVal.nan := by
        rw [List.get?_map,
          zipWith_get?_some PVal.sub _ _ 0 _ _ (map_fin_get? lq hnl) hsh]
        rfl
      rw [zipWith_get?_some PVal.maxSkipNa _ _ 0 _ _
        (zipWith_get?_some PVal.maxSkipNa _ _ 0 _ _ e1 e2) e3,
        List.get?_map, trSpec_get? hq lq cq 0 hn]
      simp
    | succ j =>
      have hsh : (shift1 (cq.map PVal.fin)).get? (j + 1) =
          some (PVal.fin (cq.getD j 0)) := by
        rw [shift1_get?_succ (by simpa using hnc)]
        exact map_fin_get? cq (by omega)
      have e2 : ((List.zipWith PVal.sub (hq.map PVal.fin)
          (shift1 (cq.map PVal.fin))).map PVal.absP).get? (j + 1) =
          some (PVal.fin |hq.getD (j + 1) 0 - cq.getD j 0|) := by
        rw [List.get?_map,
          zipWith_get?_some PVal.sub _ _ (j + 1) _ _ (map_fin_get? hq hn) hsh]
        simp
      have e3 : ((List.zipWith PVal.sub (lq.map PVal.fin)
          (shift1 (cq.map PVal.fin))).map PVal.absP).get? (j + 1) =
          some (PVal.fin |lq.getD (j + 1) 0 - cq.getD j 0|) := by
        rw [List.get?_map,
          zipWith_get?_some PVal.sub _ _ (j + 1) _ _ (map_fin_get? lq hnl) hsh]
        simp
      rw [zipWith_get?_some PVal.maxSkipNa _ _ (j + 1) _ _
        (zipWith_get?_some PVal.maxSkipNa _ _ (j + 1) _ _ e1 e2) e3,
        List.get?_map, trSpec_get? hq lq cq (j + 1) hn]
      simp
  · have hlhs : (List.zipWith PVal.maxSkipNa
        (List.zipWith PVal.maxSkipNa
          (List.zipWith PVal.sub (hq.map PVal.fin) (lq.map PVal.fin))
          ((List.zipWith PVal.sub (hq.map PVal.fin)
            (shift1 (cq.map PVal.fin))).map PVal.absP))
        ((List.zipWith PVal.sub (lq.map PVal.fin)
          (shift1 (cq.map PVal.fin))).map PVal.absP)).length ≤ n := by
      simp [List.length_zipWith, shift1_length, h1.symm, h2.symm]
      omega
    have hrhs : ((trSpec hq lq cq).map PVal.fin).length ≤ n := by
      simp [trSpec_length]
      omega
    rw [List.get?_eq_none.mpr hlhs, List.get?_eq_none.mpr hrhs]

/-- Claim C6: for equal-length finite inputs, calculate_atr is exactly the
rolling mean over window of the spec's true-range sequence (tr[0] =
high[0] - low[0], tr[i] the maximum of the bar range and the absolute gaps to
the previous close); consequently on a constant series with high = low =
close every true-range cell is 0 and the ATR is 0 at every defined
position. -/
theorem C6_atr_spec :
    (∀ (high low close : List ℚ) (window : ℕ),
      high.length = low.length → low.length = close.length →
      calculate_atr (high.map PVal.fin) (low.map PVal.fin) (close.map PVal.fin) window =
        rollingMean ((trSpec high low close).map PVal.fin) window) ∧
    (∀ (q : ℚ) (n : ℕ),
      trSpec (List.replicate n q) (List.replicate n q) (List.replicate n q) =
        List.replicate n 0) ∧
    (∀ (q : ℚ) (n window i : ℕ), 1 ≤ window → window - 1 ≤ i → i < n →
      (calculate_atr ((List.replicate n q).map PVal.fin)
        ((List.replicate n q).map PVal.fin)
        ((List.replicate n q).map PVal.fin) window).get? i = some (PVal.fin 0)) := by
  have hrefine : ∀ (high low close : List ℚ) (window : ℕ),
      high.length = low.length → low.length = close.length →
      calculate_atr (high.map PVal.fin) (low.map PVal.fin) (close.map PVal.fin) window =
        rollingMean ((trSpec high low close).map PVal.fin) window := by
    intro high low close window h1 h2
    simp only [calculate_atr]
    rw [atr_tr_eq high low close h1 h2]
  have hflat : ∀ (q : ℚ) (n : ℕ),
      trSpec (List.replicate n q) (List.replicate n q) (List.replicate n q) =
        List.replicate n 0 := by
    intro q n
    apply List.ext_get?
    intro m
    by_cases hm : m < n
    · rw [trSpec_get? _ _ _ m (by simpa using hm),
        List.get?_eq_getElem?, List.getElem?_replicate, if_pos hm]
      cases m with
      | zero =>
        rw [if_pos rfl, replicate_getD q hm]
        simp
      | succ j =>
        rw [if_neg (Nat.succ_ne_zero j), replicate_getD q hm, replicate_getD q (by omega)]
        simp
    · rw [List.get?_eq_none.mpr (by rw [trSpec_length]; simpa using not_lt.mp hm),
        List.get?_eq_none.mpr (by simpa using not_lt.mp hm)]
  refine ⟨hrefine, hflat, ?_⟩
  intro q n window i hw hi hin
  rw [hrefine _ _ _ window (by simp) (by simp), hflat q n,
    rollingMean_map_fin_get? hw (by simpa using hin) hi,
    List.drop_replicate, List.take_replicate, List.sum_replicate]
  simp

/-- Witness for C6: a constant two-bar series with window 1 has ATR 0 at
position 0. -/
theorem C6_atr_spec_witness :
    (calculate_atr ((List.replicate 2 (7 : ℚ)).map PVal.fin)
      ((List.replicate 2 (7 : ℚ)).map PVal.fin)
      ((List.replicate 2 (7 : ℚ)).map PVal.fin) 1).get? 0 = some (PVal.fin 0) :=
  C6_atr_spec.2.2 7 2 1 0 (by norm_num) (by norm_num) (by norm_num)

lemma rollingMean_map_fin_one (l : List ℚ) :
    rollingMean (l.map PVal.fin) 1 = l.map PVal.fin := by
  apply List.ext_get?
  intro n
  by_cases hn : n < l.length
  · rw [rollingMean_map_fin_get? (le_refl 1) hn (by omega)]
    have hdrop : l.drop n = l.getD n 0 :: l.drop (n + 1) := by
      rw [List.drop_eq_getElem_cons hn]
      congr 1
      rw [List.getD_eq_get?, List.get?_eq_get hn]
      rfl
    rw [List.get?_map, get?_eq_some_getD (0 : ℚ) hn]
    simp only [Nat.add_sub_cancel]
    rw [hdrop]
    simp
  · rw [List.get?_eq_none.mpr (by rw [rollingMean_length]; simpa using not_lt.mp hn),
      List.get?_eq_none.mpr (by simpa using not_lt.mp hn)]

lemma rollingMean_nonneg_get? {d : List (PVal ℚ)} {w i : ℕ} (hd : NonnegFin d)
    (hw : 1 ≤ w) (h : i < d.length) (hi : w - 1 ≤ i) :
    ∃ s : ℚ, (rollingMean d w).get? i = some (PVal.fin s) ∧ 0 ≤ s := by
  rw [rollingMean_get? d w i h, if_neg (by omega)]
  have hslice : NonnegFin ((d.drop (i + 1 - w)).take w) := by
    intro u hu
    exact hd u (List.mem_of_mem_drop (List.mem_of_mem_take hu))
  rcases sumP_nonneg hslice with ⟨s, hs, hs0⟩
  rw [hs, PVal.div_fin_fin_of_ne _ (Nat.cast_ne_zero.mpr (by omega))]
  exact ⟨s / w, rfl, div_nonneg hs0 (by positivity)⟩

lemma sampleVar_length (d : List (PVal ℚ)) (w : ℕ) :
    (sampleVar d w).length = d.length := by
  simp [sampleVar]

lemma sampleVar_get? (d : List (PVal ℚ)) (w i : ℕ) (h : i < d.length) :
    (sampleVar d w).get? i =
      some (if i + 1 < w then PVal.nan
        else PVal.div (sumP (((d.drop (i + 1 - w)).take w).map (fun v =>
            PVal.mul
              (PVal.sub v (PVal.div (sumP ((d.drop (i + 1 - w)).take w)) (PVal.fin w)))
              (PVal.sub v (PVal.div (sumP ((d.drop (i + 1 - w)).take w)) (PVal.fin w))))))
          (PVal.fin ((w : ℚ) - 1))) := by
  unfold sampleVar
  rw [List.get?_map, List.get?_range h]
  rfl

lemma sampleVar_map_fin_get? {l : List ℚ} {w i : ℕ} (hw : 1 ≤ w)
    (h : i < l.length) (hi : w - 1 ≤ i) :
    (sampleVar (l.map PVal.fin) w).get? i =
      some (PVal.div
        (PVal.fin ((((l.drop (i + 1 - w)).take w).map (fun x =>
          (x - ((l.drop (i + 1 - w)).take w).sum / (w : ℚ)) *
          (x - ((l.drop (i + 1 - w)).take w).sum / (w : ℚ)))).sum))
        (PVal.fin ((w : ℚ) - 1))) := by
  rw [sampleVar_get? _ w i (by simpa using h), if_neg (by omega)]
  rw [slice_map_fin, sumP_map_fin,
    PVal.div_fin_fin_of_ne _ (Nat.cast_ne_zero.mpr (by omega))]
  congr 2
  rw [List.map_map]
  have hcomp : (fun v => PVal.mul
      (PVal.sub v (PVal.fin (((l.drop (i + 1 - w)).take w).sum / (w : ℚ))))
      (PVal.sub v (PVal.fin (((l.drop (i + 1 - w)).take w).sum / (w : ℚ))))) ∘ PVal.fin
      = PVal.fin ∘ (fun x =>
        (x - ((l.drop (i + 1 - w)).take w).sum / (w : ℚ)) *
        (x - ((l.drop (i + 1 - w)).take w).sum / (w : ℚ))) := by
    funext x
    simp
  rw [hcomp, ← List.map_map, sumP_map_fin]

lemma sampleVar_map_fin_get?_fin {l : List ℚ} {w i : ℕ} (hw : 2 ≤ w)
    (h : i < l.length) (hi : w - 1 ≤ i) :
    (sampleVar (l.map PVal.fin) w).get? i =
      some (PVal.fin (((((l.drop (i + 1 - w)).take w).map (fun x =>
          (x - ((l.drop (i + 1 - w)).take w).sum / (w : ℚ)) *
          (x - ((l.drop (i + 1 - w)).take w).sum / (w : ℚ)))).sum) / ((w : ℚ) - 1))) := by
  rw [sampleVar_map_fin_get? (by omega) h hi, PVal.div_fin_fin_of_ne]
  have h2 : (2 : ℚ) ≤ (w : ℚ) := by exact_mod_cast hw
  linarith

lemma sampleVar_map_fin_get?_one {l : List ℚ} {i : ℕ} (h : i < l.length) :
    (sampleVar (l.map PVal.fin) 1).get? i = some PVal.nan := by
  rw [sampleVar_map_fin_get? (le_refl 1) h (by omega)]
  have hdrop : l.drop i = l.getD i 0 :: l.drop (i + 1) := by
    rw [List.drop_eq_getElem_cons h]
    congr 1
    rw [List.getD_eq_get?, List.get?_eq_get h]
    rfl
  simp only [Nat.add_sub_cancel]
  rw [hdrop]
  have hz : ((([l.getD i 0] : List ℚ).map (fun x =>
      (x - ([l.getD i 0] : List ℚ).sum / ((1 : ℕ) : ℚ)) *
      (x - ([l.getD i 0] : List ℚ).sum / ((1 : ℕ) : ℚ)))).sum) = 0 := by
    simp
  have htake : (l.getD i 0 :: l.drop (i + 1)).take 1 = [l.getD i 0] := rfl
  rw [htake, hz]
  norm_num

lemma rollingStd_length (d : List (PVal ℚ)) (w : ℕ) :
    (rollingStd d w).length = d.length := by
  simp [rollingStd, sampleVar_length]

lemma rollingStd_get?_nan {d : List (PVal ℚ)} {w i : ℕ}
    (h : (sampleVar d w).get? i = some PVal.nan) :
    (rollingStd d w).get? i = some PVal.nan := by
  rw [rollingStd, List.get?_map, h]
  rfl

lemma rollingStd_get?_fin {d : List (PVal ℚ)} {w i : ℕ} {q : ℚ}
    (h : (sampleVar d w).get? i = some (PVal.fin q)) :
    (rollingStd d w).get? i = some (PVal.fin (Real.sqrt (q : ℝ))) := by
  rw [rollingStd, List.get?_map, h]
  rfl

/-- Band width identity for any position where both the rolling mean and the
rolling std are finite: upper minus lower is 2 * num_std times the std. -/
lemma bollinger_band_width {data : List (PVal ℚ)} {w : ℕ} {num_std : ℚ} {i : ℕ}
    {mq : ℚ} {s : ℝ}
    (hmean : (rollingMean data w).get? i = some (PVal.fin mq))
    (hstd : (rollingStd data w).get? i = some (PVal.fin s)) :
    PVal.sub ((calculate_bollinger_bands data w num_std).1.getD i PVal.nan)
        ((calculate_bollinger_bands data w num_std).2.2.getD i PVal.nan)
      = PVal.mul (PVal.fin (((2 * num_std : ℚ) : ℝ)))
          ((rollingStd data w).getD i PVal.nan) := by
  have hmid : ((rollingMean data w).map (PVal.map (Rat.cast : ℚ → ℝ))).get? i
      = some (PVal.fin ((mq : ℚ) : ℝ)) := by
    rw [List.get?_map, hmean]
    rfl
  have hsm : ((rollingStd data w).map
      (fun t => PVal.mul t (PVal.fin ((num_std : ℚ) : ℝ)))).get? i
      = some (PVal.fin (s * ((num_std : ℚ) : ℝ))) := by
    rw [List.get?_map, hstd]
    rfl
  simp only [calculate_bollinger_bands]
  rw [List.getD_eq_get?, List.getD_eq_get?, List.getD_eq_get?,
    zipWith_get?_some PVal.add _ _ i _ _ hmid hsm,
    zipWith_get?_some PVal.sub _ _ i _ _ hmid hsm, hstd]
  simp only [Option.getD_some, PVal.add_fin_fin, PVal.sub_fin_fin, PVal.mul_fin_fin]
  congr 1
  push_cast
  ring

/-- Claim C10: the Bollinger computation uses the sample standard deviation
(denominator window - 1): with window 1 the upper and lower bands are NaN at
every position while the middle band is defined everywhere, and for window at
least 2, at every defined position the std cell is the square root of the sum
of squared deviations divided by window - 1, and upper minus lower equals
2 * num_std * std exactly. -/
theorem C10_bollinger_spec (close : List ℚ) (window : ℕ) (num_std : ℚ) :
    (window = 1 → ∀ i, i < close.length →
      (calculate_bollinger_bands (close.map PVal.fin) window num_std).2.1.get? i =
          some (PVal.fin ((close.getD i 0 : ℚ) : ℝ)) ∧
      (calculate_bollinger_bands (close.map PVal.fin) window num_std).1.get? i =
          some PVal.nan ∧
      (calculate_bollinger_bands (close.map PVal.fin) window num_std).2.2.get? i =
          some PVal.nan) ∧
    (2 ≤ window → ∀ i, window - 1 ≤ i → i < close.length →
      (rollingStd (close.map PVal.fin) window).get? i =
        some (PVal.fin (Real.sqrt (((((close.drop (i + 1 - window)).take window).map
          (fun x => (x - ((close.drop (i + 1 - window)).take window).sum / (window : ℚ)) *
            (x - ((close.drop (i + 1 - window)).take window).sum / (window : ℚ)))).sum /
          ((window : ℚ) - 1) : ℚ) : ℝ))) ∧
      PVal.sub
        ((calculate_bollinger_bands (close.map PVal.fin) window num_std).1.getD i
          PVal.nan)
        ((calculate_bollinger_bands (close.map PVal.fin) window num_std).2.2.getD i
          PVal.nan)
        = PVal.mul (PVal.fin (((2 * num_std : ℚ) : ℝ)))
            ((rollingStd (close.map PVal.fin) window).getD i PVal.nan)) := by
  constructor
  · rintro rfl i hi
    have hmid : ((rollingMean (close.map PVal.fin) 1).map
        (PVal.map (Rat.cast : ℚ → ℝ))).get? i =
        some (PVal.fin ((close.getD i 0 : ℚ) : ℝ)) := by
      rw [rollingMean_map_fin_one, List.get?_map, map_fin_get? close hi]
      rfl
    have hstd : (rollingStd (close.map PVal.fin) 1).get? i = some PVal.nan :=
      rollingStd_get?_nan (sampleVar_map_fin_get?_one hi)
    have hstdmul : ((rollingStd (close.map PVal.fin) 1).map
        (fun s => PVal.mul s (PVal.fin ((num_std : ℚ) : ℝ)))).get? i = some PVal.nan := by
      rw [List.get?_map, hstd]
      rfl
    refine ⟨?_, ?_, ?_⟩
    · simpa only [calculate_bollinger_bands] using hmid
    · simp only [calculate_bollinger_bands]
      rw [zipWith_get?_some PVal.add _ _ i _ _ hmid hstdmul]
      rfl
    · simp only [calculate_bollinger_bands]
      rw [zipWith_get?_some PVal.sub _ _ i _ _ hmid hstdmul]
      rfl
  · intro h2 i hi hil
    have hvar := @sampleVar_map_fin_get?_fin close window i h2 hil hi
    have hstd := rollingStd_get?_fin hvar
    refine ⟨hstd, ?_⟩
    exact bollinger_band_width (rollingMean_map_fin_get? (by omega) hil hi) hstd

/-- Witness for C10: with window 1 on the one-bar series 1, the middle band
at position 0 is the value 1 while the upper and lower bands are NaN. -/
theorem C10_bollinger_spec_witness :
    (calculate_bollinger_bands ([1].map PVal.fin) 1 2).2.1.get? 0 =
        some (PVal.fin ((([1] : List ℚ).getD 0 0 : ℚ) : ℝ)) ∧
    (calculate_bollinger_bands ([1].map PVal.fin) 1 2).1.get? 0 = some PVal.nan ∧
    (calculate_bollinger_bands ([1].map PVal.fin) 1 2).2.2.get? 0 = some PVal.nan :=
  (C10_bollinger_spec [1] 1 2).1 rfl 0 (by norm_num)

/-- Claim C3 as amended: (i) the rolling mean is NaN exactly at the first
window - 1 positions; (ii) for window at least 2 the rolling standard
deviation is NaN exactly at the first window - 1 positions, while for
window = 1 it is NaN at every position (sample convention, 0/0); (iii) the
RSI is NaN at the first window - 1 positions, and at a position from
window - 1 onward it is NaN exactly when the trailing window is fully flat
(both rolling averages are zero). The amendment carves out the window = 1
standard deviation and the flat-window RSI cases, on which the claim as
stated fails. -/
theorem C3_definedness_amended (close : List ℚ) (window : ℕ) :
    (1 ≤ window → ∀ i, i < close.length →
      (((calculate_moving_average (close.map PVal.fin) window).getD i PVal.nan).isNan = true
        ↔ i < window - 1)) ∧
    (2 ≤ window → ∀ i, i < close.length →
      (((rollingStd (close.map PVal.fin) window).getD i PVal.nan).isNan = true
        ↔ i < window - 1)) ∧
    (∀ i, i < close.length →
      ((rollingStd (close.map PVal.fin) 1).getD i PVal.nan).isNan = true) ∧
    (∀ i, i < close.length → i < window - 1 →
      (calculate_rsi (close.map PVal.fin) window).get? i = some PVal.nan) ∧
    (1 ≤ window → ∀ i, window - 1 ≤ i → i < close.length →
      (((calculate_rsi (close.map PVal.fin) window).getD i PVal.nan).isNan = true ↔
        ((avg_gain (close.map PVal.fin) window).getD i PVal.nan = PVal.fin 0 ∧
         (avg_loss (close.map PVal.fin) window).getD i PVal.nan = PVal.fin 0))) := by
  refine ⟨?_, ?_, ?_, ?_, ?_⟩
  · intro hw i hi
    by_cases hcase : i < window - 1
    · rw [List.getD_eq_get?, calculate_moving_average,
        rollingMean_get?_nan (by simpa using hi) (by omega)]
      simp [hcase]
    · rw [List.getD_eq_get?, calculate_moving_average,
        rollingMean_map_fin_get? hw hi (by omega)]
      simp [hcase]
  · intro h2 i hi
    by_cases hcase : i < window - 1
    · have hv : (sampleVar (close.map PVal.fin) window).get? i = some PVal.nan := by
        rw [sampleVar_get? _ window i (by simpa using hi), if_pos (by omega)]
      rw [List.getD_eq_get?, rollingStd_get?_nan hv]
      simp [hcase]
    · rw [List.getD_eq_get?,
        rollingStd_get?_fin (@sampleVar_map_fin_get?_fin close window i h2 hi (by omega))]
      simp [hcase]
  · intro i hi
    rw [List.getD_eq_get?, rollingStd_get?_nan (@sampleVar_map_fin_get?_one close i hi)]
    rfl
  · intro i hi hpre
    exact rsi_prefix_nan close window i hi hpre
  · intro hw i hi hil
    obtain ⟨g, hg, hg0⟩ := rollingMean_nonneg_get? (gain_nonneg close) hw
      (by rw [gain_length]; exact hil) hi
    obtain ⟨l, hl, hl0⟩ := rollingMean_nonneg_get? (loss_nonneg close) hw
      (by rw [loss_length]; exact hil) hi
    have hg' : (avg_gain (close.map PVal.fin) window).get? i = some (PVal.fin g) := hg
    have hl' : (avg_loss (close.map PVal.fin) window).get? i = some (PVal.fin l) := hl
    have hrsi : (calculate_rsi (close.map PVal.fin) window).get? i =
        some (PVal.sub (PVal.fin 100) (PVal.div (PVal.fin 100)
          (PVal.add (PVal.fin 1) (PVal.div (PVal.fin g) (PVal.fin l))))) := by
      simp only [calculate_rsi]
      rw [List.get?_map, zipWith_get?_some PVal.div _ _ i _ _ hg' hl']
      rfl
    rw [List.getD_eq_get?, hrsi, List.getD_eq_get?, hg', List.getD_eq_get?, hl']
    simp only [Option.getD_some, PVal.fin.injEq]
    by_cases hlz : l = 0
    · subst hlz
      by_cases hgz : g = 0
      · subst hgz
        rw [PVal.div_fin_fin_zero_zero]
        simp
      · rw [PVal.div_fin_fin_zero_of_ne hgz, rsi_cell_inf]
        simp [hgz]
    · rw [PVal.div_fin_fin_of_ne _ hlz, rsi_cell_fin (div_nonneg hg0 hl0)]
      simp [hlz]

/-- Witness for the amended C3: on the series 1, 2 with window 2, the moving
average at position 0 is the no-value marker. -/
theorem C3_definedness_amended_witness :
    ((calculate_moving_average ([1, 2].map PVal.fin) 2).getD 0 PVal.nan).isNan = true :=
  ((C3_definedness_amended [1, 2] 2).1 (by norm_num) 0 (by norm_num)).mpr (by norm_num)

/-- Counterexample to claim C3 as stated: with window 1 the claim says the
rolling standard deviation and the RSI are defined from position 0 onward,
but on the series 1, 2 both are NaN at position 0. -/
theorem C3_counterexample :
    (calculate_rsi ([1, 2].map PVal.fin) 1).get? 0 = some PVal.nan ∧
    (rollingStd ([1, 2].map PVal.fin) 1).get? 0 = some PVal.nan ∧
    (PVal.nan : PVal ℚ).isNan = true := by
  refine ⟨?_, rollingStd_get?_nan (@sampleVar_map_fin_get?_one [1, 2] 0 (by norm_num)), rfl⟩
  norm_num [calculate_rsi, avg_gain, avg_loss, gain, loss, diffP, shift1, rollingMean,
    sumP, List.range_succ, PVal.sub, PVal.add, PVal.div, PVal.neg, PVal.gtZero,
    PVal.ltZero]
